import Mathlib

/-!
Verification development for the DSP module (digital signal processing
demonstrations): signal data model, signal generator, mixer family,
quadrature network and the on-the-fly FIR convolver.

Numeric model: the Python code computes with IEEE floats via numpy.  The
embedding replaces floats by exact arithmetic: rationals for real-valued
arrays and pairs of rationals (`CQ`) for complex-valued arrays, so that
every array operation of the source is an exact function on lists.  The
trigonometric signal generator is embedded over the mathematical reals.
-/

/-- A complex number with rational real and imaginary parts, the exact
stand-in for numpy complex values. -/
structure CQ where
  re : ℚ
  im : ℚ
deriving DecidableEq, Repr

namespace CQ

/-- Complex addition on rational pairs. -/
def add (x y : CQ) : CQ := ⟨x.re + y.re, x.im + y.im⟩

/-- Complex multiplication on rational pairs. -/
def mul (x y : CQ) : CQ := ⟨x.re * y.re - x.im * y.im, x.re * y.im + x.im * y.re⟩

/-- Complex negation. -/
def neg (x : CQ) : CQ := ⟨-x.re, -x.im⟩

/-- Complex conjugate, `numpy.conjugate`. -/
def conj (x : CQ) : CQ := ⟨x.re, -x.im⟩

theorem add_assoc1 (a b c : CQ) : add (add a b) c = add a (add b c) := by
  cases a; cases b; cases c; simp [add]; constructor <;> ring

theorem mul_assoc1 (a b c : CQ) : mul (mul a b) c = mul a (mul b c) := by
  cases a; cases b; cases c; simp [mul]; constructor <;> ring

theorem zero_add1 (a : CQ) : add ⟨0, 0⟩ a = a := by cases a; simp [add]

theorem add_zero1 (a : CQ) : add a ⟨0, 0⟩ = a := by cases a; simp [add]

theorem add_comm1 (a b : CQ) : add a b = add b a := by
  cases a; cases b; simp [add]; constructor <;> ring

theorem one_mul1 (a : CQ) : mul ⟨1, 0⟩ a = a := by cases a; simp [mul]

theorem mul_one1 (a : CQ) : mul a ⟨1, 0⟩ = a := by cases a; simp [mul]

theorem left_distrib1 (a b c : CQ) : mul a (add b c) = add (mul a b) (mul a c) := by
  cases a; cases b; cases c; simp [mul, add]; constructor <;> ring

theorem right_distrib1 (a b c : CQ) : mul (add a b) c = add (mul a c) (mul b c) := by
  cases a; cases b; cases c; simp [mul, add]; constructor <;> ring

theorem mul_comm1 (a b : CQ) : mul a b = mul b a := by
  cases a; cases b; simp [mul]; constructor <;> ring

theorem zero_mul1 (a : CQ) : mul ⟨0, 0⟩ a = ⟨0, 0⟩ := by cases a; simp [mul]

theorem mul_zero1 (a : CQ) : mul a ⟨0, 0⟩ = ⟨0, 0⟩ := by cases a; simp [mul]

theorem neg_add_cancel1 (a : CQ) : add (neg a) a = ⟨0, 0⟩ := by cases a; simp [add, neg]

instance : Zero CQ := ⟨⟨0, 0⟩⟩
instance : One CQ := ⟨⟨1, 0⟩⟩
instance : Add CQ := ⟨add⟩
instance : Mul CQ := ⟨mul⟩
instance : Neg CQ := ⟨neg⟩

instance : CommRing CQ where
  add := add
  add_assoc := add_assoc1
  zero := ⟨0, 0⟩
  zero_add := zero_add1
  add_zero := add_zero1
  add_comm := add_comm1
  mul := mul
  mul_assoc := mul_assoc1
  one := ⟨1, 0⟩
  one_mul := one_mul1
  mul_one := mul_one1
  left_distrib := left_distrib1
  right_distrib := right_distrib1
  mul_comm := mul_comm1
  zero_mul := zero_mul1
  mul_zero := mul_zero1
  neg := neg
  neg_add_cancel := neg_add_cancel1
  nsmul := nsmulRec
  zsmul := zsmulRec

@[simp] theorem add_re (x y : CQ) : (x + y).re = x.re + y.re := rfl
@[simp] theorem add_im (x y : CQ) : (x + y).im = x.im + y.im := rfl
@[simp] theorem mul_re (x y : CQ) : (x * y).re = x.re * y.re - x.im * y.im := rfl
@[simp] theorem mul_im (x y : CQ) : (x * y).im = x.re * y.im + x.im * y.re := rfl
@[simp] theorem neg_re (x : CQ) : (-x).re = -x.re := rfl
@[simp] theorem neg_im (x : CQ) : (-x).im = -x.im := rfl
@[simp] theorem zero_re : (0 : CQ).re = 0 := rfl
@[simp] theorem zero_im : (0 : CQ).im = 0 := rfl
@[simp] theorem one_re : (1 : CQ).re = 1 := rfl
@[simp] theorem one_im : (1 : CQ).im = 0 := rfl
@[simp] theorem conj_re (x : CQ) : (conj x).re = x.re := rfl
@[simp] theorem conj_im (x : CQ) : (conj x).im = -x.im := rfl
@[simp] theorem mk_add_mk (a b c d : ℚ) : (⟨a, b⟩ + ⟨c, d⟩ : CQ) = ⟨a + c, b + d⟩ := rfl
@[simp] theorem mk_mul_mk (a b c d : ℚ) :
    (⟨a, b⟩ * ⟨c, d⟩ : CQ) = ⟨a * c - b * d, a * d + b * c⟩ := rfl

theorem ext_iff {x y : CQ} : x = y ↔ x.re = y.re ∧ x.im = y.im := by
  constructor
  · intro h; exact ⟨congrArg re h, congrArg im h⟩
  · intro ⟨h1, h2⟩; cases x; cases y; simp_all

/-- Embed a rational (numpy float) into `CQ`. -/
def ofQ (q : ℚ) : CQ := ⟨q, 0⟩

@[simp] theorem ofQ_re (q : ℚ) : (ofQ q).re = q := rfl
@[simp] theorem ofQ_im (q : ℚ) : (ofQ q).im = 0 := rfl

/-- The imaginary part of a complex value times its own conjugate is
exactly zero in exact arithmetic. -/
theorem mul_conj_im (z : CQ) : (z * conj z).im = 0 := by
  cases z; simp [conj]; ring

end CQ

/-- A numpy one-dimensional array together with its dtype: `real` is a
float array, `cplx` a complex array. -/
inductive NPArray where
  | real (xs : List ℚ)
  | cplx (xs : List CQ)
deriving DecidableEq, Repr

namespace NPArray

/-- Embeds `len(a)`. -/
def len : NPArray → ℕ
  | .real xs => xs.length
  | .cplx xs => xs.length

/-- Embeds `a.dtype == float`. -/
def isRealDtype : NPArray → Bool
  | .real _ => true
  | .cplx _ => false

/-- Embeds `a.dtype == complex`. -/
def isComplexDtype : NPArray → Bool
  | .real _ => false
  | .cplx _ => true

/-- Embeds the slice `a[:n]`. -/
def trunc : NPArray → ℕ → NPArray
  | .real xs, n => .real (xs.take n)
  | .cplx xs, n => .cplx (xs.take n)

/-- Embeds `a.real`: for a float array the array itself, for a complex
array the list of real parts. -/
def realPart : NPArray → List ℚ
  | .real xs => xs
  | .cplx xs => xs.map CQ.re

/-- Embeds `a.imag`: zeros for a float array, the imaginary parts for a
complex array. -/
def imagPart : NPArray → List ℚ
  | .real xs => List.replicate xs.length 0
  | .cplx xs => xs.map CQ.im

/-- Elementwise product with numpy dtype promotion: float times float is
float, any complex operand makes the result complex. -/
def mul : NPArray → NPArray → NPArray
  | .real xs, .real ys => .real (List.zipWith (fun a b => a * b) xs ys)
  | .real xs, .cplx ys => .cplx (List.zipWith (fun a b => a * b) (xs.map CQ.ofQ) ys)
  | .cplx xs, .real ys => .cplx (List.zipWith (fun a b => a * b) xs (ys.map CQ.ofQ))
  | .cplx xs, .cplx ys => .cplx (List.zipWith (fun a b => a * b) xs ys)

@[simp] theorem len_real (xs : List ℚ) : len (.real xs) = xs.length := rfl
@[simp] theorem len_cplx (xs : List CQ) : len (.cplx xs) = xs.length := rfl

end NPArray

/-- The `DigitalSignal` ndarray subclass: the sample data plus the
`info` mode tag set by `__new__`. -/
structure DigitalSignal where
  data : NPArray
  mode : String
deriving DecidableEq, Repr

namespace DigitalSignal

/-- Embeds `DigitalSignal.__new__` (src/__init__.py lines 81 to 126) for
float `I` and `Q` arguments, which is how every call site in the module
uses it; the `rms` noise path is not modelled (all claims use the default
`rms=None`).

Faithful detail: when both `I` and `Q` are given with different lengths,
the target array is allocated with the min length but the subsequent
numpy assignments `obj.real = I` and `obj.imag = Q` are of the full,
untruncated argument arrays, and numpy raises a broadcast `ValueError`
when the lengths differ.  `Q` alone raises; no arguments gives complex
zeros of length `M`. -/
def new (M : ℕ) (I Q : Option (List ℚ)) : Except String DigitalSignal :=
  match I, Q with
  | some i, some q =>
      let m := if q.length = i.length then i.length else min i.length q.length
      -- obj.real = I  requires len(I) == m
      if i.length = m then
        -- obj.imag = NP.zeros(n_I) requires n_I == m (same condition),
        -- then obj.imag = Q requires len(Q) == m
        if q.length = m then
          .ok ⟨.cplx (List.zipWith CQ.mk i q), "complex"⟩
        else .error "ValueError: could not broadcast"
      else .error "ValueError: could not broadcast"
  | some i, none => .ok ⟨.real i, "real"⟩
  | none, some _ => .error "ValueError: DigitalSignal: cannot create signal from Q alone"
  | none, none => .ok ⟨.cplx (List.replicate M 0), "complex"⟩

end DigitalSignal

namespace SignalGenerator

/-- Embeds the `"real"` branch of `SignalGenerator.__init__`
(src/__init__.py lines 212 to 222): value of the generated sample at
index `n` for sample count `M`.  Each component is
(amplitude, frequency, phase) and the code accumulates
`comp[0] * cos(2*pi*(comp[1]*m/M + comp[2]))` into an array of zeros
recast to float. -/
noncomputable def realS (M : ℕ) (components : List (ℚ × ℚ × ℚ)) (n : ℕ) : ℝ :=
  components.foldl (fun acc comp =>
    acc + (comp.1 : ℝ) *
      Real.cos (2 * Real.pi * ((comp.2.1 : ℝ) * (n : ℝ) / (M : ℝ) + (comp.2.2 : ℝ)))) 0

/-- Modelled from the spec: the `Real` mode formula of section 4.1,
`amplitude * cos(2*pi*(frequency*n/N - phase))` summed over components,
with the phase subtracted (this is also what the docstring of
`SignalGenerator.__init__` states, `sin(t - phase)`). -/
noncomputable def realModeSpecValue (M : ℕ) (components : List (ℚ × ℚ × ℚ)) (n : ℕ) : ℝ :=
  (components.map (fun comp =>
    (comp.1 : ℝ) *
      Real.cos (2 * Real.pi * ((comp.2.1 : ℝ) * (n : ℝ) / (M : ℝ) - (comp.2.2 : ℝ))))).sum

/-- Embeds the `"complex"` branch of `SignalGenerator.__init__`
(src/__init__.py lines 233 to 243): value of the generated sample at
index `n`.  Each component is (frequency, Icoef, Qcoef); the code builds
the array `s` with `s.real = cos(2*pi*f*m/M)` and
`s.imag = sin(2*pi*f*m/M)` and accumulates the complex product
`s * complex(Icoef, Qcoef)`. -/
noncomputable def complexS (M : ℕ) (components : List (ℚ × ℚ × ℚ)) (n : ℕ) : ℂ :=
  components.foldl (fun acc comp =>
    acc + (⟨Real.cos (2 * Real.pi * ((comp.1 : ℝ) * (n : ℝ) / (M : ℝ))),
            Real.sin (2 * Real.pi * ((comp.1 : ℝ) * (n : ℝ) / (M : ℝ)))⟩ : ℂ) *
          (⟨(comp.2.1 : ℝ), (comp.2.2 : ℝ)⟩ : ℂ)) 0

/-- Modelled from the spec: the `Complex` mode formula of section 4.1,
`Icoef * cos(2*pi*f*n/N) + i * Qcoef * sin(2*pi*f*n/N)` summed over the
components (this is also what the docstring of
`SignalGenerator.__init__` states). -/
noncomputable def complexModeSpecValue (M : ℕ) (components : List (ℚ × ℚ × ℚ)) (n : ℕ) : ℂ :=
  (components.map (fun comp =>
    ((comp.2.1 : ℝ) : ℂ) * ((Real.cos (2 * Real.pi * ((comp.1 : ℝ) * (n : ℝ) / (M : ℝ))) : ℝ) : ℂ)
    + Complex.I * ((comp.2.2 : ℝ) : ℂ) *
      ((Real.sin (2 * Real.pi * ((comp.1 : ℝ) * (n : ℝ) / (M : ℝ))) : ℝ) : ℂ))).sum

end SignalGenerator

/-- State of an `OTFConvolver`: the FIR filter `F`, its tap count `K`,
the circular buffer, the filtered-output history, the rotating index
`oldest` and the input-sample history `data`. -/
structure ConvState where
  F : List CQ
  K : ℕ
  circ_buf : List CQ
  filtered : List CQ
  oldest : ℕ
  data : List CQ

namespace OTFConvolver

/-- Embeds the data-free part of `OTFConvolver.__init__`
(src/__init__.py lines 315 to 335): bind the kernel, allocate `K`
complex zeros, `oldest = 0`, empty histories.  No validation of the
kernel length is performed. -/
def init (FIRfilter : List CQ) : ConvState :=
  { F := FIRfilter
    K := FIRfilter.length
    circ_buf := List.replicate FIRfilter.length 0
    filtered := []
    oldest := 0
    data := [] }

/-- Embeds `OTFConvolver.__init__` with its optional `data` argument.
Faithful detail: the batch branch (lines 329 to 333) runs
`self.filtered.append(self.convolution_step(sample))` in a loop, but
`sample` is an unbound name there, so Python raises `NameError` on the
first iteration whenever `data` is truthy (non-empty); an empty or
absent `data` takes the else branch and succeeds. -/
def initWithData (FIRfilter : List CQ) (data : Option (List CQ)) : Except String ConvState :=
  match data with
  | some d => if d.isEmpty then .ok (init FIRfilter)
              else .error "NameError: name sample is not defined"
  | none => .ok (init FIRfilter)

/-- Embeds `OTFConvolver.convolution_step` (src/__init__.py lines 356 to
384): the cross-correlation sum of `F` with the circular buffer read in
rotated order starting at `oldest` (computed before the new sample is
stored), one append of the sum to `filtered`, then `oldest` advances by
one modulo `K` and the new sample is written at the new `oldest` slot.
With `K = 0` the Python modulo raises `ZeroDivisionError` (after the
append of the empty sum has already happened). -/
def convolution_step (st : ConvState) (sample : CQ) : Except String (CQ × ConvState) :=
  let sumprod := (List.zipWith (fun a b => a * b) st.F
      (st.circ_buf.drop st.oldest ++ st.circ_buf.take st.oldest)).sum
  let st1 : ConvState := { st with filtered := st.filtered ++ [sumprod] }
  if st.K = 0 then .error "ZeroDivisionError: integer modulo by zero"
  else
    let newOldest := (st.oldest + 1) % st.K
    .ok (sumprod, { st1 with oldest := newOldest
                             circ_buf := st1.circ_buf.set newOldest sample })

/-- Embeds `OTFConvolver.next` (src/__init__.py lines 337 to 354): the
sample is appended to `data`; with fewer than `K` samples seen the
sample is stored at buffer position `idx = len(data)`, a zero is pushed
to `filtered` and `None` is returned; otherwise `convolution_step` runs
and its value is appended to `filtered` a second time and returned. -/
def next (st : ConvState) (sample : CQ) : Except String (Option CQ × ConvState) :=
  let st0 : ConvState := { st with data := st.data ++ [sample] }
  let idx := st0.data.length
  if idx < st0.K then
    .ok (none, { st0 with circ_buf := st0.circ_buf.set idx sample
                          filtered := st0.filtered ++ [0] })
  else
    match convolution_step st0 sample with
    | .ok vs => .ok (some vs.1, { vs.2 with filtered := vs.2.filtered ++ [vs.1] })
    | .error e => .error e

/-- The cross-correlation value named by the specification: the sum over
`n < K` of `kernel[n] * buffer[(oldest + n) mod K]`, taken on the buffer
contents as they are in `st` (before the incoming sample is stored). -/
def convSum (st : ConvState) : CQ :=
  ∑ n ∈ Finset.range st.K, st.F.getD n 0 * st.circ_buf.getD ((st.oldest + n) % st.K) 0

end OTFConvolver

namespace BasicMixer

/-- Embeds the wrap at the end of `BasicMixer.mixed` (src/__init__.py
lines 438 to 442): a float product becomes `DigitalSignal(I=IF)`, a
complex product becomes `DigitalSignal(I=IF.real, Q=IF.imag)`. -/
def wrapIF : NPArray → Except String DigitalSignal
  | .real xs => DigitalSignal.new 1024 (some xs) none
  | .cplx xs => DigitalSignal.new 1024 (some (xs.map CQ.re)) (some (xs.map CQ.im))

/-- Embeds `BasicMixer.mixed` (src/__init__.py lines 417 to 442): the
longer input is truncated to the length of the shorter, the arrays are
multiplied elementwise, and the product is wrapped as a `DigitalSignal`
of mode real (float product) or complex (complex product, I and Q taken
from the real and imaginary parts of the product). -/
def mixed (signal LO : NPArray) : Except String DigitalSignal :=
  let p : NPArray × NPArray :=
    if signal.len = LO.len then (signal, LO)
    else if LO.len < signal.len then (signal.trunc LO.len, LO)
    else (signal, LO.trunc signal.len)
  wrapIF (NPArray.mul p.1 p.2)

/-- Embeds `BasicMixer.__init__` (src/__init__.py lines 394 to 415): the
intermediate frequency is `None` when either input is absent, otherwise
`BasicMixer.mixed` of the two arrays. -/
def init (signal LO : Option NPArray) : Except String (Option DigitalSignal) :=
  match signal, LO with
  | some s, some l => (mixed s l).map some
  | _, _ => .ok none

end BasicMixer

/-- Modelled from the spec: the forward discrete Fourier transform
primitive the core consumes ("a forward/inverse discrete Fourier
transform primitive", section 6).  `w` stands for the root of unity
`exp(-2*pi*i/N)`; the transform is `X_k = sum_n x_n * w^(k*n)`. -/
def dft (w : CQ) (x : List CQ) : List CQ :=
  (List.range x.length).map fun k =>
    ((List.range x.length).map fun n => x.getD n 0 * w ^ (k * n)).sum

/-- Modelled from the spec: the inverse discrete Fourier transform
primitive; `winv` stands for `exp(2*pi*i/N)` and the result is scaled by
`1/N`. -/
def idft (winv : CQ) (x : List CQ) : List CQ :=
  (List.range x.length).map fun n =>
    (⟨1 / (x.length : ℚ), 0⟩ : CQ) *
      ((List.range x.length).map fun k => x.getD k 0 * winv ^ (k * n)).sum

/-- Modelled from the spec: the spectral multiplier of the analytic
signal construction used by `scipy.signal.hilbert` (the Hilbert
transform primitive of section 4.2): 1 at frequency zero, 2 on positive
frequencies below Nyquist, 1 at the Nyquist bin, 0 on negative
frequencies. -/
def analyticKernel (N : ℕ) : List CQ :=
  (List.range N).map fun k =>
    if k = 0 then 1
    else if 2 * k < N then ⟨2, 0⟩
    else if 2 * k = N then 1
    else 0

/-- Modelled from the spec: the spectral multiplier of the
`scipy.fftpack.hilbert` primitive, `y_j = i * sign(j) * x_j` with the
zero-frequency and (for even N) Nyquist coefficients set to zero. -/
def fftpackKernel (N : ℕ) : List CQ :=
  (List.range N).map fun k =>
    if k = 0 then 0
    else if 2 * k < N then ⟨0, 1⟩
    else if 2 * k = N then 0
    else ⟨0, -1⟩

/-- Modelled from the spec: `scipy.signal.hilbert` on a real (float)
input, the analytic-signal construction: inverse transform of the
kernel-weighted spectrum. -/
def scipySignalHilbert (w winv : CQ) (x : List ℚ) : List CQ :=
  idft winv (List.zipWith (fun a b => a * b) (analyticKernel x.length)
    (dft w (x.map CQ.ofQ)))

/-- Modelled from the spec: `scipy.fftpack.hilbert` on a float array,
which returns a float array (the exact result is real when `w` is the
true root of unity, so the real projection is the identity there). -/
def fftpackHilbertList (w winv : CQ) (xs : List ℚ) : List ℚ :=
  (idft winv (List.zipWith (fun a b => a * b)
      (fftpackKernel xs.length) (dft w (xs.map CQ.ofQ)))).map CQ.re

/-- Modelled from the spec: `scipy.fftpack.hilbert`, which maps a float
array to a float array and a complex array to a complex array. -/
def fftpackHilbert (w winv : CQ) : NPArray → NPArray
  | .real xs => .real (fftpackHilbertList w winv xs)
  | .cplx xs => .cplx (idft winv (List.zipWith (fun a b => a * b)
      (fftpackKernel xs.length) (dft w xs)))

namespace QuadratureSplitter

/-- Embeds `QuadratureSplitter.split` (src/__init__.py lines 602 to
606): `scipy.signal.hilbert(signal)/2`, the analytic signal scaled by
one half. -/
def split (w winv : CQ) (signal : List ℚ) : List CQ :=
  (scipySignalHilbert w winv signal).map fun z => (⟨1 / 2, 0⟩ : CQ) * z

end QuadratureSplitter

namespace QuadratureHybrid

/-- Embeds `QuadratureHybrid.convert` (src/__init__.py lines 628 to
633): `paths = scipy.fftpack.hilbert(signal)` followed by
`(signal.real + paths.imag, signal.imag + paths.real)`. -/
def convert (w winv : CQ) (signal : NPArray) : List ℚ × List ℚ :=
  let paths := fftpackHilbert w winv signal
  (List.zipWith (fun a b => a + b) signal.realPart paths.imagPart,
   List.zipWith (fun a b => a + b) signal.imagPart paths.realPart)

end QuadratureHybrid

namespace ComplexMixer

/-- Embeds `ComplexMixer._check_inputs` (src/__init__.py lines 509 to
520): both inputs must be float arrays; the Python function returns
`None` (falsy) when either input is not an ndarray. -/
def checkInputs (signal LO : Option NPArray) : Option Bool :=
  match signal, LO with
  | some s, some l =>
      if s.isRealDtype = false then some false
      else if l.isRealDtype = false then some false
      else some true
  | _, _ => none

/-- Embeds `ComplexMixer.mixed` (src/__init__.py lines 522 to 533): the
LO is converted with `QuadratureHybrid().convert`, the quadrature LO is
`I + 1j*Q`, the product is formed by `BasicMixer.mixed` and the mode is
set to complex. -/
def mixed (w winv : CQ) (signal LO : NPArray) : Except String (Option DigitalSignal) :=
  if (checkInputs (some signal) (some LO)).getD false = true then
    let IQ := QuadratureHybrid.convert w winv LO
    let qlo : NPArray := .cplx (List.zipWith CQ.mk IQ.1 IQ.2)
    match BasicMixer.mixed signal qlo with
    | .ok ds => .ok (some { ds with mode := "complex" })
    | .error e => .error e
  else .ok none

/-- Embeds `ComplexMixer.__init__` (src/__init__.py lines 491 to 507):
a failed input check raises (`ValueError` for wrong dtypes; with a
`None` input the error-message formatting itself raises
`AttributeError` first); otherwise the parent constructor runs (its
intermediate frequency is discarded) and the final intermediate
frequency is recomputed by `ComplexMixer.mixed` with the quadrature
LO. -/
def init (w winv : CQ) (signal LO : Option NPArray) : Except String (Option DigitalSignal) :=
  match checkInputs signal LO with
  | some true =>
      match signal, LO with
      | some s, some l => mixed w winv s l
      | _, _ => .ok none
  | some false => .error "ValueError: signal dtype or LO dtype is wrong"
  | none => .error "AttributeError"

end ComplexMixer

/-- The quadrature local oscillator that `ComplexMixer` actually builds
from a float LO: real part the LO itself, imaginary part its
`scipy.fftpack.hilbert` transform, with no one-half scaling. -/
def hybridQLO (w winv : CQ) (LO : List ℚ) : List CQ :=
  List.zipWith CQ.mk LO (fftpackHilbertList w winv LO)

/-- Result of `ParallelMixer.__init__`: `IF = none` means the attribute
was never assigned (the Python object has no `IF`), `IF = some x` means
the parent constructor assigned `x`. -/
structure ParallelMixerState where
  IF : Option (Option DigitalSignal)
deriving DecidableEq, Repr

namespace ParallelMixer

/-- Embeds `ParallelMixer._check_inputs` (src/__init__.py lines 553 to
564): the signal must be complex, the LO float; the Python function
returns `None` (falsy) when either input is not an ndarray. -/
def checkInputs (signal LO : Option NPArray) : Option Bool :=
  match signal, LO with
  | some s, some l =>
      if s.isComplexDtype = false then some false
      else if l.isRealDtype = false then some false
      else some true
  | _, _ => none

/-- Embeds `ParallelMixer.__init__` (src/__init__.py lines 543 to 551):
when the input check is truthy the parent `BasicMixer.__init__` runs and
assigns the `IF` attribute; otherwise the constructor returns normally
without ever assigning `IF` - it does not raise. -/
def init (signal LO : Option NPArray) : Except String ParallelMixerState :=
  if (checkInputs signal LO).getD false = true then
    match signal, LO with
    | some s, some l => (BasicMixer.mixed s l).map fun ds => ⟨some (some ds)⟩
    | _, _ => .ok ⟨some none⟩
  else .ok ⟨none⟩

end ParallelMixer

/-- The elementwise imaginary parts of `signal * signal.conjugate()`. -/
def selfConjImags (xs : List CQ) : List ℚ :=
  (List.zipWith (fun a b => a * b) xs (xs.map CQ.conj)).map CQ.im

/-- Embeds `is_quadrature` (src/__init__.py lines 766 to 782): `False`
for a non-complex dtype; otherwise the code tests
`(signal*signal.conjugate()).imag.all() == 0`, where numpy `.all()` is
true when every element is nonzero, so the comparison with `0` (false)
yields `True` exactly when not every imaginary part is nonzero. -/
def is_quadrature (signal : NPArray) : Bool :=
  match signal with
  | .real _ => false
  | .cplx xs =>
      if ((selfConjImags xs).all fun x => !decide (x = 0)) = false then true
      else false

/-- Modelled from the spec: the predicate the specification states for
`isQuadrature`, true iff the signal is complex-valued and the
elementwise product with its own conjugate has zero imaginary part at
every index. -/
def isQuadratureSpec (signal : NPArray) : Prop :=
  ∃ xs, signal = NPArray.cplx xs ∧ ∀ q ∈ selfConjImags xs, q = 0

/-! Helper lemmas. -/

theorem zipWith_mk_re_im (xs : List CQ) :
    List.zipWith CQ.mk (xs.map CQ.re) (xs.map CQ.im) = xs := by
  induction xs with
  | nil => rfl
  | cons x xt ih => simp [ih]

theorem selfConjImags_eq_replicate (xs : List CQ) :
    selfConjImags xs = List.replicate xs.length 0 := by
  induction xs with
  | nil => rfl
  | cons x xt ih =>
    simp only [selfConjImags, List.map_cons, List.zipWith_cons_cons,
      List.length_cons, List.replicate_succ] at ih ⊢
    exact congrArg₂ List.cons (CQ.mul_conj_im x) ih

theorem wrapIF_eq (z : NPArray) :
    BasicMixer.wrapIF z =
      .ok ⟨z, if z.isRealDtype = true then "real" else "complex"⟩ := by
  cases z with
  | real xs => rfl
  | cplx xs =>
    simp [BasicMixer.wrapIF, DigitalSignal.new, zipWith_mk_re_im, NPArray.isRealDtype]

theorem mixed_ok (s l : NPArray) : ∃ ds, BasicMixer.mixed s l = .ok ds := by
  exact ⟨_, by rw [BasicMixer.mixed]; exact wrapIF_eq _⟩

/-- C8: the claim says batch construction processes all the supplied
samples through the step logic; the code instead raises `NameError`
for any non-empty data because line 333 references the unbound name
`sample`.  This theorem evaluates the constructor at the failing
input. -/
theorem claim_C8_batch_nameerror :
    OTFConvolver.initWithData [⟨1, 0⟩] (some [⟨1, 0⟩, ⟨2, 0⟩]) =
      .error "NameError: name sample is not defined" := rfl

/-- C7 counterexample: constructing a convolver with a zero-length
kernel does not fail; it returns the ordinary initial state with
`K = 0`, so the claimed construction-time `EmptyKernel` failure does not
exist. -/
theorem claim_C7_counterexample :
    OTFConvolver.initWithData [] none = .ok (OTFConvolver.init []) ∧
      (OTFConvolver.init []).K = 0 := ⟨rfl, rfl⟩

/-- C7 (amended): construction performs no kernel-length validation and
(without batch data) always succeeds, for every kernel length including
zero; a zero-length kernel causes a failure only at the first step,
where advancing `oldest` modulo `K = 0` raises `ZeroDivisionError`. -/
theorem claim_C7_no_construction_check (F : List CQ) (s : CQ) :
    OTFConvolver.initWithData F none = .ok (OTFConvolver.init F) ∧
    (F = [] → OTFConvolver.next (OTFConvolver.init F) s =
        .error "ZeroDivisionError: integer modulo by zero") := by
  refine ⟨rfl, ?_⟩
  rintro rfl
  simp [OTFConvolver.next, OTFConvolver.init, OTFConvolver.convolution_step]

/-- C7 witness. -/
theorem claim_C7_witness :
    OTFConvolver.initWithData [] none = .ok (OTFConvolver.init []) ∧
    (([] : List CQ) = [] → OTFConvolver.next (OTFConvolver.init []) 0 =
        .error "ZeroDivisionError: integer modulo by zero") :=
  claim_C7_no_construction_check [] 0

/-- C6: the claim says I of length 10 and Q of length 7 yield a
signal of length 7; the code instead raises a broadcast `ValueError`
because the untruncated length-10 array is assigned into the
min-length-7 target.  This theorem evaluates `__new__` at the failing
input. -/
theorem claim_C6_broadcast_error :
    DigitalSignal.new 1024 (some (List.replicate 10 (1 : ℚ)))
        (some (List.replicate 7 (1 : ℚ))) =
      .error "ValueError: could not broadcast" := by
  simp [DigitalSignal.new]

/-- C9 counterexample: with a float (non-complex) signal and a float
LO, `ParallelMixer.__init__` does not fail at all; it returns normally
with the `IF` attribute never assigned, contradicting the claimed fatal
`TypeMismatch` failure. -/
theorem claim_C9_counterexample :
    ParallelMixer.init (some (.real [1])) (some (.real [1])) = .ok ⟨none⟩ := rfl

/-- C9 (amended): `ParallelMixer` rejects a signal that is not complex
or an LO that is not real, but the rejection is not fatal: the
constructor returns normally with `IF` never assigned.  Only when the
signal is complex and the LO is real is the intermediate frequency
computed (by `BasicMixer.mixed`, always a complete signal).  Absent inputs likewise leave `IF` unassigned. -/
theorem claim_C9_no_raise (signal LO : Option NPArray) :
    ((signal = none ∨ LO = none) → ParallelMixer.init signal LO = .ok ⟨none⟩) ∧
    (∀ s l, signal = some s → LO = some l →
      ((¬(s.isComplexDtype = true ∧ l.isRealDtype = true)) →
          ParallelMixer.init signal LO = .ok ⟨none⟩) ∧
      ((s.isComplexDtype = true ∧ l.isRealDtype = true) →
          ∃ ds, ParallelMixer.init signal LO = .ok ⟨some (some ds)⟩ ∧
            BasicMixer.mixed s l = .ok ds)) := by
  constructor
  · rintro (rfl | rfl)
    · simp [ParallelMixer.init, ParallelMixer.checkInputs]
    · cases signal <;> simp [ParallelMixer.init, ParallelMixer.checkInputs]
  · rintro s l rfl rfl
    constructor
    · intro hnot
      cases s with
      | real xs => simp [ParallelMixer.init, ParallelMixer.checkInputs, NPArray.isComplexDtype]
      | cplx xs =>
        cases l with
        | real ys => exact absurd ⟨rfl, rfl⟩ hnot
        | cplx ys =>
          simp [ParallelMixer.init, ParallelMixer.checkInputs, NPArray.isComplexDtype,
            NPArray.isRealDtype]
    · rintro ⟨hs, hl⟩
      cases s with
      | real xs => simp [NPArray.isComplexDtype] at hs
      | cplx xs =>
        cases l with
        | cplx ys => simp [NPArray.isRealDtype] at hl
        | real ys =>
          obtain ⟨ds, hds⟩ := mixed_ok (.cplx xs) (.real ys)
          refine ⟨ds, ?_, hds⟩
          simp [ParallelMixer.init, ParallelMixer.checkInputs, NPArray.isComplexDtype,
            NPArray.isRealDtype, hds, Except.map]

/-- C9 witness. -/
theorem claim_C9_witness :
    ∃ ds, ParallelMixer.init (some (.cplx [⟨1, 1⟩])) (some (.real [2])) =
        .ok ⟨some (some ds)⟩ ∧
      BasicMixer.mixed (.cplx [⟨1, 1⟩]) (.real [2]) = .ok ds :=
  ((claim_C9_no_raise (some (.cplx [⟨1, 1⟩])) (some (.real [2]))).2
    (.cplx [⟨1, 1⟩]) (.real [2]) rfl rfl).2 ⟨rfl, rfl⟩

/-- C10 counterexample: the empty complex signal satisfies the
predicate stated by the specification (complex dtype, vacuously zero
imaginary parts) yet `is_quadrature` returns `False` on it, because the
code tests `.all() == 0` and numpy `.all()` of an empty array is
`True`. -/
theorem claim_C10_counterexample :
    is_quadrature (NPArray.cplx []) = false ∧ isQuadratureSpec (NPArray.cplx []) := by
  refine ⟨rfl, [], rfl, ?_⟩
  intro q hq
  simp [selfConjImags] at hq

/-- C10 (amended): `is_quadrature` returns `True` iff the signal is
complex-valued and not every entry of `(s * conj(s)).imag` is nonzero;
in exact arithmetic those imaginary parts are identically zero, so the
predicate is `True` exactly for non-empty complex signals and `False`
for every non-complex signal (and for the empty complex signal). -/
theorem claim_C10_characterisation (signal : NPArray) :
    is_quadrature signal = true ↔ ∃ xs, signal = NPArray.cplx xs ∧ xs ≠ [] := by
  cases signal with
  | real xs => simp [is_quadrature]
  | cplx xs =>
    rw [is_quadrature, selfConjImags_eq_replicate]
    cases xs with
    | nil => simp
    | cons x xt => simp [List.replicate_succ]

/-- C10 witness. -/
theorem claim_C10_witness :
    is_quadrature (NPArray.cplx [⟨1, 2⟩]) = true :=
  (claim_C10_characterisation (NPArray.cplx [⟨1, 2⟩])).mpr ⟨[⟨1, 2⟩], rfl, by simp⟩

theorem trunc_self (a : NPArray) : a.trunc a.len = a := by
  cases a <;> simp [NPArray.trunc, NPArray.len]

theorem truncPair_eq (a b : NPArray) :
    (if a.len = b.len then (a, b)
     else if b.len < a.len then (a.trunc b.len, b)
     else (a, b.trunc a.len))
    = (a.trunc (min a.len b.len), b.trunc (min a.len b.len)) := by
  rcases Nat.lt_trichotomy a.len b.len with h | h | h
  · rw [if_neg (Nat.ne_of_lt h), if_neg (Nat.lt_asymm h),
      Nat.min_eq_left (Nat.le_of_lt h), trunc_self]
  · rw [if_pos h, h, Nat.min_self, trunc_self]
    have hb : a.trunc b.len = a := by rw [← h, trunc_self]
    rw [hb]
  · rw [if_neg (Nat.ne_of_lt h).symm, if_pos h,
      Nat.min_eq_right (Nat.le_of_lt h), trunc_self]

theorem mixed_eq_trunc (a b : NPArray) :
    BasicMixer.mixed a b =
      .ok ⟨NPArray.mul (a.trunc (min a.len b.len)) (b.trunc (min a.len b.len)),
           if (NPArray.mul (a.trunc (min a.len b.len))
                 (b.trunc (min a.len b.len))).isRealDtype = true
           then "real" else "complex"⟩ := by
  rw [BasicMixer.mixed]
  simp only [truncPair_eq]
  exact wrapIF_eq _

theorem len_mul_trunc (a b : NPArray) :
    (NPArray.mul (a.trunc (min a.len b.len)) (b.trunc (min a.len b.len))).len
      = min a.len b.len := by
  cases a <;> cases b <;>
    simp [NPArray.mul, NPArray.trunc, NPArray.len, List.length_zipWith,
      List.length_take]

theorem mul_isRealDtype (x y : NPArray) :
    (NPArray.mul x y).isRealDtype = (x.isRealDtype && y.isRealDtype) := by
  cases x <;> cases y <;> rfl

theorem trunc_isRealDtype (a : NPArray) (n : ℕ) :
    (a.trunc n).isRealDtype = a.isRealDtype := by
  cases a <;> rfl

theorem isComplexDtype_eq_not (a : NPArray) :
    a.isComplexDtype = !a.isRealDtype := by
  cases a <;> rfl

/-- C3: `BasicMixer` yields an absent intermediate frequency when either
input is absent; otherwise the longer input is truncated to the common
minimum length, the intermediate frequency is the elementwise product of
the truncated arrays, and it is wrapped as a `DigitalSignal` of mode
real exactly when the product is real-valued (both inputs float) and of
mode complex (data carrying the real and imaginary parts of the
product) otherwise. -/
theorem claim_C3_basic_mixer (signal LO : Option NPArray) :
    ((signal = none ∨ LO = none) → BasicMixer.init signal LO = .ok none) ∧
    (∀ a b, signal = some a → LO = some b →
      ∃ ds : DigitalSignal,
        BasicMixer.init signal LO = .ok (some ds) ∧
        ds.data = NPArray.mul (a.trunc (min a.len b.len))
          (b.trunc (min a.len b.len)) ∧
        ds.data.len = min a.len b.len ∧
        ((a.isRealDtype = true ∧ b.isRealDtype = true) →
            ds.mode = "real" ∧ ds.data.isRealDtype = true) ∧
        (¬(a.isRealDtype = true ∧ b.isRealDtype = true) →
            ds.mode = "complex" ∧ ds.data.isComplexDtype = true)) := by
  constructor
  · rintro (rfl | rfl)
    · simp [BasicMixer.init]
    · cases signal <;> simp [BasicMixer.init]
  · rintro a b rfl rfl
    refine ⟨⟨NPArray.mul (a.trunc (min a.len b.len)) (b.trunc (min a.len b.len)),
             if (NPArray.mul (a.trunc (min a.len b.len))
                   (b.trunc (min a.len b.len))).isRealDtype = true
             then "real" else "complex"⟩, ?_, rfl, len_mul_trunc a b, ?_, ?_⟩
    · simp [BasicMixer.init, mixed_eq_trunc, Except.map]
    · rintro ⟨ha, hb⟩
      constructor
      · simp [mul_isRealDtype, trunc_isRealDtype, ha, hb]
      · simp [mul_isRealDtype, trunc_isRealDtype, ha, hb]
    · intro hnot
      have hfalse : (NPArray.mul (a.trunc (min a.len b.len))
          (b.trunc (min a.len b.len))).isRealDtype = false := by
        rw [mul_isRealDtype, trunc_isRealDtype, trunc_isRealDtype]
        cases ha : a.isRealDtype <;> cases hb : b.isRealDtype <;> simp_all
      constructor
      · simp [hfalse]
      · rw [isComplexDtype_eq_not, hfalse]; rfl

/-- C3 witness. -/
theorem claim_C3_witness :
    ∃ ds : DigitalSignal,
      BasicMixer.init (some (.real [2])) (some (.real [3, 4])) = .ok (some ds) ∧
      ds.data = NPArray.mul
        ((NPArray.real [2]).trunc (min (NPArray.real [2]).len (NPArray.real [3, 4]).len))
        ((NPArray.real [3, 4]).trunc (min (NPArray.real [2]).len (NPArray.real [3, 4]).len)) ∧
      ds.data.len = min (NPArray.real [2]).len (NPArray.real [3, 4]).len ∧
      ds.mode = "real" ∧ ds.data.isRealDtype = true := by
  obtain ⟨ds, h1, h2, h3, h4, h5⟩ :=
    (claim_C3_basic_mixer (some (.real [2])) (some (.real [3, 4]))).2
      (.real [2]) (.real [3, 4]) rfl rfl
  obtain ⟨hm, hr⟩ := h4 ⟨rfl, rfl⟩
  exact ⟨ds, h1, h2, h3, hm, hr⟩

theorem rotated_getD (buf : List CQ) (o n : ℕ) (ho : o < buf.length)
    (hn : n < buf.length) :
    (buf.drop o ++ buf.take o).getD n 0 = buf.getD ((o + n) % buf.length) 0 := by
  rw [List.getD_eq_getElem?_getD, List.getD_eq_getElem?_getD, List.getElem?_append,
    List.length_drop]
  by_cases h : n < buf.length - o
  · rw [if_pos h, List.getElem?_drop, Nat.mod_eq_of_lt (by omega)]
  · rw [if_neg h, List.getElem?_take, if_pos (by omega)]
    have hmod : (o + n) % buf.length = n - (buf.length - o) := by
      rw [Nat.mod_eq_sub_mod (by omega), Nat.mod_eq_of_lt (by omega)]
      omega
    rw [hmod]

theorem sum_zipWith_getD (xs ys : List CQ) (h : ys.length = xs.length) :
    (List.zipWith (fun a b => a * b) xs ys).sum =
      ∑ n ∈ Finset.range xs.length, xs.getD n 0 * ys.getD n 0 := by
  induction xs generalizing ys with
  | nil => simp
  | cons x xt ih =>
    cases ys with
    | nil => simp at h
    | cons y yt =>
      rw [List.zipWith_cons_cons, List.sum_cons, List.length_cons,
        Finset.sum_range_succ']
      simp only [List.getD_cons_succ, List.getD_cons_zero]
      rw [ih yt (by simpa using h), add_comm]

/-- C1: one call of the step operation on a primed-or-not convolver
state with kernel length `K` at least one.  With the new sample being
the `i`-th seen and `i < K`, the call returns `None` while storing the
sample at buffer slot `i` (the buffer index is not rotated, `oldest` is
unchanged) and recording a placeholder zero.  With `i` at least `K`, the
call returns the cross-correlation sum of the kernel with the buffer
read in rotated order from `oldest` - computed on the buffer as it was
before this sample is stored - and only afterwards advances `oldest` by
one position (mod `K`) and stores the new sample at the new `oldest`
slot. -/
theorem claim_C1_step (st : ConvState) (sample : CQ)
    (hKF : st.K = st.F.length)
    (hbuf : st.circ_buf.length = st.K)
    (hK : 1 ≤ st.K)
    (hold : st.oldest < st.K) :
    (st.data.length + 1 < st.K →
      OTFConvolver.next st sample =
        .ok (none,
          { st with data := st.data ++ [sample]
                    circ_buf := st.circ_buf.set (st.data.length + 1) sample
                    filtered := st.filtered ++ [0] })) ∧
    (st.K ≤ st.data.length + 1 →
      OTFConvolver.next st sample =
        .ok (some (OTFConvolver.convSum st),
          { st with data := st.data ++ [sample]
                    oldest := (st.oldest + 1) % st.K
                    circ_buf := st.circ_buf.set ((st.oldest + 1) % st.K) sample
                    filtered := st.filtered ++
                      [OTFConvolver.convSum st, OTFConvolver.convSum st] })) := by
  have hsum : (List.zipWith (fun a b => a * b) st.F
      (st.circ_buf.drop st.oldest ++ st.circ_buf.take st.oldest)).sum
      = OTFConvolver.convSum st := by
    rw [sum_zipWith_getD _ _ (by simp [List.length_drop, List.length_take]; omega)]
    rw [OTFConvolver.convSum, ← hKF]
    refine Finset.sum_congr rfl fun n hn => ?_
    have hn2 : n < st.K := Finset.mem_range.mp hn
    rw [rotated_getD st.circ_buf st.oldest n (by omega) (by omega), hbuf]
  constructor
  · intro hlt
    simp only [OTFConvolver.next, List.length_append, List.length_cons,
      List.length_nil, Nat.zero_add]
    rw [if_pos (by omega)]
  · intro hge
    simp only [OTFConvolver.next, OTFConvolver.convolution_step,
      List.length_append, List.length_cons, List.length_nil, Nat.zero_add]
    rw [if_neg (by omega), if_neg (show ¬ st.K = 0 by omega)]
    rw [hsum]
    simp

/-- C1 witness: a one-tap convolver with one sample already seen; the
step is in the primed branch and returns the kernel tap times the
buffered value. -/
theorem claim_C1_witness :
    OTFConvolver.next ⟨[⟨2, 0⟩], 1, [⟨3, 0⟩], [], 0, []⟩ ⟨4, 0⟩ =
      .ok (some (OTFConvolver.convSum ⟨[⟨2, 0⟩], 1, [⟨3, 0⟩], [], 0, []⟩),
        ⟨[⟨2, 0⟩], 1, [⟨4, 0⟩],
         [OTFConvolver.convSum ⟨[⟨2, 0⟩], 1, [⟨3, 0⟩], [], 0, []⟩,
          OTFConvolver.convSum ⟨[⟨2, 0⟩], 1, [⟨3, 0⟩], [], 0, []⟩], 0, [⟨4, 0⟩]⟩) ∧
    OTFConvolver.convSum ⟨[⟨2, 0⟩], 1, [⟨3, 0⟩], [], 0, []⟩ = ⟨6, 0⟩ := by
  constructor
  · have h := (claim_C1_step ⟨[⟨2, 0⟩], 1, [⟨3, 0⟩], [], 0, []⟩ ⟨4, 0⟩
      rfl rfl (Nat.le_refl 1) Nat.zero_lt_one).2 (Nat.le_refl 1)
    exact h
  · simp [OTFConvolver.convSum, Finset.sum_range_succ]
    norm_num

theorem foldl_add_eq_sum {α : Type} {M : Type} [AddCommMonoid M] (f : α → M) :
    ∀ (l : List α) (a : M), l.foldl (fun acc x => acc + f x) a = a + (l.map f).sum := by
  intro l
  induction l with
  | nil => intro a; simp
  | cons x xt ih => intro a; simp [ih, add_assoc]

theorem list_sum_re (l : List ℂ) : l.sum.re = (l.map Complex.re).sum := by
  induction l with
  | nil => simp
  | cons x xt ih => simp [ih]

theorem list_sum_im (l : List ℂ) : l.sum.im = (l.map Complex.im).sum := by
  induction l with
  | nil => simp
  | cons x xt ih => simp [ih]

theorem complexMk_re (a b : ℝ) : (⟨a, b⟩ : ℂ).re = a := rfl

theorem complexMk_im (a b : ℝ) : (⟨a, b⟩ : ℂ).im = b := rfl

/-- C2 counterexample: one component `(frequency 1, Icoef 1, Qcoef 0)`
with `M = 4` at index `n = 1`.  The claimed formula gives
`1 * cos(pi/2) + i * 0 * sin(pi/2) = 0`, while the code - which
multiplies `cos + i sin` by the complex number `Icoef + i Qcoef` -
produces `i`. -/
theorem claim_C2_counterexample :
    SignalGenerator.complexS 4 [(1, 1, 0)] 1 ≠
      SignalGenerator.complexModeSpecValue 4 [(1, 1, 0)] 1 := by
  have hθ : 2 * Real.pi * (((1 : ℚ) : ℝ) * ((1 : ℕ) : ℝ) / ((4 : ℕ) : ℝ)) = Real.pi / 2 := by
    push_cast
    ring
  simp only [SignalGenerator.complexS, SignalGenerator.complexModeSpecValue,
    List.foldl_cons, List.foldl_nil, List.map_cons, List.map_nil, List.sum_cons,
    List.sum_nil, zero_add, add_zero]
  rw [hθ, Real.cos_pi_div_two, Real.sin_pi_div_two]
  intro hcontra
  have him := congrArg Complex.im hcontra
  simp [Complex.mul_im, complexMk_re, complexMk_im] at him

/-- C2 (amended): in Complex mode the generated value at index `n` is
the sum over components of the complex product
`(cos(2 pi f n/N) + i sin(2 pi f n/N)) * (Icoef + i Qcoef)`, whose real
part is `Icoef cos - Qcoef sin` and whose imaginary part is
`Icoef sin + Qcoef cos` - not `Icoef cos + i Qcoef sin`. -/
theorem claim_C2_complex_mode (M : ℕ) (components : List (ℚ × ℚ × ℚ)) (n : ℕ)
    (h : n < M) :
    SignalGenerator.complexS M components n =
      ⟨(components.map fun comp =>
          (comp.2.1 : ℝ) * Real.cos (2 * Real.pi * ((comp.1 : ℝ) * (n : ℝ) / (M : ℝ)))
          - (comp.2.2 : ℝ) * Real.sin (2 * Real.pi * ((comp.1 : ℝ) * (n : ℝ) / (M : ℝ)))).sum,
       (components.map fun comp =>
          (comp.2.1 : ℝ) * Real.sin (2 * Real.pi * ((comp.1 : ℝ) * (n : ℝ) / (M : ℝ)))
          + (comp.2.2 : ℝ) * Real.cos (2 * Real.pi * ((comp.1 : ℝ) * (n : ℝ) / (M : ℝ)))).sum⟩ := by
  rw [SignalGenerator.complexS, foldl_add_eq_sum, zero_add]
  apply Complex.ext
  · rw [list_sum_re, complexMk_re, List.map_map]
    refine congrArg List.sum (List.map_congr_left fun comp _ => ?_)
    simp only [Function.comp_apply, Complex.mul_re, complexMk_re, complexMk_im]
    ring
  · rw [list_sum_im, complexMk_im, List.map_map]
    refine congrArg List.sum (List.map_congr_left fun comp _ => ?_)
    simp only [Function.comp_apply, Complex.mul_im, complexMk_re, complexMk_im]
    ring

/-- C2 witness. -/
theorem claim_C2_witness :
    SignalGenerator.complexS 4 [(1, 2, 3)] 1 =
      ⟨([((1 : ℚ), (2 : ℚ), (3 : ℚ))].map fun comp =>
          (comp.2.1 : ℝ) * Real.cos (2 * Real.pi * ((comp.1 : ℝ) * ((1 : ℕ) : ℝ) / ((4 : ℕ) : ℝ)))
          - (comp.2.2 : ℝ) * Real.sin (2 * Real.pi * ((comp.1 : ℝ) * ((1 : ℕ) : ℝ) / ((4 : ℕ) : ℝ)))).sum,
       ([((1 : ℚ), (2 : ℚ), (3 : ℚ))].map fun comp =>
          (comp.2.1 : ℝ) * Real.sin (2 * Real.pi * ((comp.1 : ℝ) * ((1 : ℕ) : ℝ) / ((4 : ℕ) : ℝ)))
          + (comp.2.2 : ℝ) * Real.cos (2 * Real.pi * ((comp.1 : ℝ) * ((1 : ℕ) : ℝ) / ((4 : ℕ) : ℝ)))).sum⟩ :=
  claim_C2_complex_mode 4 [(1, 2, 3)] 1 (by omega)

/-- C4: the claim (like the docstring of the function) states the phase
enters as `cos(2 pi (f n/N - phase))`; the code computes
`cos(2 pi (f n/N + phase))`.  At `M = 4`, component
`(amplitude 1, frequency 1, phase 1/4)`, index `n = 1`, the code yields
`cos(pi) = -1` while the documented formula yields `cos(0) = 1`. -/
theorem claim_C4_phase_sign :
    SignalGenerator.realS 4 [(1, 1, 1/4)] 1 = -1 ∧
    SignalGenerator.realModeSpecValue 4 [(1, 1, 1/4)] 1 = 1 := by
  constructor
  · simp only [SignalGenerator.realS, List.foldl_cons, List.foldl_nil, zero_add]
    have hθ : 2 * Real.pi * (((1 : ℚ) : ℝ) * ((1 : ℕ) : ℝ) / ((4 : ℕ) : ℝ)
        + ((1/4 : ℚ) : ℝ)) = Real.pi := by
      push_cast
      ring
    rw [hθ, Real.cos_pi]
    norm_num
  · simp only [SignalGenerator.realModeSpecValue, List.map_cons, List.map_nil,
      List.sum_cons, List.sum_nil, add_zero]
    have hθ : 2 * Real.pi * (((1 : ℚ) : ℝ) * ((1 : ℕ) : ℝ) / ((4 : ℕ) : ℝ)
        - ((1/4 : ℚ) : ℝ)) = 0 := by
      push_cast
      ring
    rw [hθ, Real.cos_zero]
    norm_num

theorem dft_length (w : CQ) (x : List CQ) : (dft w x).length = x.length := by
  simp [dft]

theorem idft_length (winv : CQ) (x : List CQ) : (idft winv x).length = x.length := by
  simp [idft]

theorem fftpackKernel_length (N : ℕ) : (fftpackKernel N).length = N := by
  simp [fftpackKernel]

theorem fftpackHilbertList_length (w winv : CQ) (xs : List ℚ) :
    (fftpackHilbertList w winv xs).length = xs.length := by
  simp [fftpackHilbertList, idft_length, List.length_zipWith, fftpackKernel_length,
    dft_length]

theorem zipWith_add_zeros_right (xs : List ℚ) :
    List.zipWith (fun a b => a + b) xs (List.replicate xs.length 0) = xs := by
  induction xs with
  | nil => rfl
  | cons x xt ih => simp [List.replicate_succ, ih]

theorem zipWith_add_zeros_left (xs : List ℚ) :
    List.zipWith (fun a b => a + b) (List.replicate xs.length 0) xs = xs := by
  induction xs with
  | nil => rfl
  | cons x xt ih => simp [List.replicate_succ, ih]

theorem convert_real (w winv : CQ) (lo : List ℚ) :
    QuadratureHybrid.convert w winv (.real lo) = (lo, fftpackHilbertList w winv lo) := by
  rw [QuadratureHybrid.convert]
  simp only [fftpackHilbert, NPArray.realPart, NPArray.imagPart,
    fftpackHilbertList_length]
  rw [zipWith_add_zeros_right]
  rw [show List.replicate lo.length (0 : ℚ)
      = List.replicate (fftpackHilbertList w winv lo).length 0 from by
    rw [fftpackHilbertList_length]]
  rw [zipWith_add_zeros_left]

theorem complexMixer_mixed_eq (w winv : CQ) (s lo : List ℚ) (h : s.length = lo.length) :
    ComplexMixer.mixed w winv (.real s) (.real lo) =
      .ok (some ⟨.cplx (List.zipWith (fun a b => a * b) (s.map CQ.ofQ)
        (hybridQLO w winv lo)), "complex"⟩) := by
  have hql : (hybridQLO w winv lo).length = s.length := by
    simp [hybridQLO, List.length_zipWith, fftpackHilbertList_length, h]
  have hmix : BasicMixer.mixed (.real s) (.cplx (hybridQLO w winv lo)) =
      .ok ⟨.cplx (List.zipWith (fun a b => a * b) (s.map CQ.ofQ)
        (hybridQLO w winv lo)), "complex"⟩ := by
    rw [mixed_eq_trunc]
    rw [show min (NPArray.real s).len (NPArray.cplx (hybridQLO w winv lo)).len
        = s.length from by simp [hql]]
    rw [show (NPArray.real s).trunc s.length = .real s from by
      simp [NPArray.trunc]]
    rw [show (NPArray.cplx (hybridQLO w winv lo)).trunc s.length
        = .cplx (hybridQLO w winv lo) from by
      simp [NPArray.trunc, ← hql]]
    rfl
  rw [ComplexMixer.mixed]
  rw [show ComplexMixer.checkInputs (some (.real s)) (some (.real lo)) = some true
      from rfl]
  simp only [Option.getD_some, if_pos]
  rw [convert_real]
  rw [show List.zipWith CQ.mk lo (fftpackHilbertList w winv lo)
      = hybridQLO w winv lo from rfl]
  rw [hmix]

/-- C5 (amended): `ComplexMixer` does not use the `QuadratureSplitter`;
it converts the local oscillator with `QuadratureHybrid.convert`, which
for a real LO produces the quadrature LO whose real part is the LO
itself and whose imaginary part is its `scipy.fftpack.hilbert`
transform, with no one-half scaling.  The intermediate frequency is the
elementwise product of the signal with that quadrature LO, and it is
complex (mode complex). -/
theorem claim_C5_hybrid_qlo (w winv : CQ) (s lo : List ℚ) (h : s.length = lo.length) :
    ComplexMixer.init w winv (some (.real s)) (some (.real lo)) =
      .ok (some ⟨.cplx (List.zipWith (fun a b => a * b) (s.map CQ.ofQ)
        (hybridQLO w winv lo)), "complex"⟩) := by
  rw [ComplexMixer.init]
  rw [show ComplexMixer.checkInputs (some (.real s)) (some (.real lo)) = some true
      from rfl]
  exact complexMixer_mixed_eq w winv s lo h

/-- C5 witness. -/
theorem claim_C5_witness :
    ComplexMixer.init ⟨0, -1⟩ ⟨0, 1⟩ (some (.real [1, 0, -1, 0]))
        (some (.real [1, 0, -1, 0])) =
      .ok (some ⟨.cplx (List.zipWith (fun a b => a * b) ([1, 0, -1, 0].map CQ.ofQ)
        (hybridQLO ⟨0, -1⟩ ⟨0, 1⟩ [1, 0, -1, 0])), "complex"⟩) :=
  claim_C5_hybrid_qlo ⟨0, -1⟩ ⟨0, 1⟩ [1, 0, -1, 0] [1, 0, -1, 0] rfl

/-- C5 counterexample: signal and LO both `cos(2 pi n/4) = [1,0,-1,0]`
with `N = 4` (root of unity `-i`).  The Splitter (analytic signal scaled
by one half) would give the intermediate frequency `[1/2, 0, 1/2, 0]`,
but `ComplexMixer` produces `[1, 0, 1, 0]`: it uses the Hybrid-derived
quadrature LO (unscaled, opposite-sign imaginary part), not the
Splitter. -/
theorem claim_C5_counterexample :
    ∃ ds : DigitalSignal,
      ComplexMixer.init ⟨0, -1⟩ ⟨0, 1⟩ (some (.real [1, 0, -1, 0]))
          (some (.real [1, 0, -1, 0])) = .ok (some ds) ∧
      ds.data ≠ NPArray.cplx (List.zipWith (fun a b => a * b)
        ([1, 0, -1, 0].map CQ.ofQ)
        (QuadratureSplitter.split ⟨0, -1⟩ ⟨0, 1⟩ [1, 0, -1, 0])) := by
  refine ⟨⟨.cplx (List.zipWith (fun a b => a * b) ([1, 0, -1, 0].map CQ.ofQ)
      (hybridQLO ⟨0, -1⟩ ⟨0, 1⟩ [1, 0, -1, 0])), "complex"⟩, ?_, ?_⟩
  · rw [ComplexMixer.init,
      show ComplexMixer.checkInputs (some (.real [1, 0, -1, 0]))
        (some (.real [1, 0, -1, 0])) = some true from rfl]
    exact complexMixer_mixed_eq _ _ _ _ rfl
  · have hcode : List.zipWith (fun a b => a * b) ([1, 0, -1, 0].map CQ.ofQ)
        (hybridQLO ⟨0, -1⟩ ⟨0, 1⟩ [1, 0, -1, 0])
        = [⟨1, 0⟩, ⟨0, 0⟩, ⟨1, 0⟩, ⟨0, 0⟩] := by
      norm_num [hybridQLO, fftpackHilbertList, idft, dft, fftpackKernel, CQ.ofQ,
        List.range_succ, pow_succ]
    have hspec : List.zipWith (fun a b => a * b) ([1, 0, -1, 0].map CQ.ofQ)
        (QuadratureSplitter.split ⟨0, -1⟩ ⟨0, 1⟩ [1, 0, -1, 0])
        = [⟨1/2, 0⟩, ⟨0, 0⟩, ⟨1/2, 0⟩, ⟨0, 0⟩] := by
      norm_num [QuadratureSplitter.split, scipySignalHilbert, idft, dft,
        analyticKernel, CQ.ofQ, List.range_succ, pow_succ]
    show NPArray.cplx _ ≠ NPArray.cplx _
    rw [hcode, hspec]
    norm_num
